import Mathlib

/-!
Shallow embedding of `src/liveplot.py` (class `LivePlot`, a live serial
plotter).

Modelling conventions:
- Raw lines and stringified samples are `List Char`; the serial device is
  a schedule `ser : List (List Char)` of lines that successive `readline`
  calls return.
- The user conversion function `comp` is fallible: `List Char → Option α`
  (`none` models the Python callable raising, e.g. `float("abc")`).
- Python's `str` applied to a sample is a parameter `toStr : α → List Char`.
- Side effects on the terminal / matplotlib / file system are recorded as a
  trace of `Event`s; an exception is an `Option PyErr` result component.
- The `while not self.stopping.is_set()` loop is unrolled along the schedule
  `ser`: one list element per completed `readline`.  Exhausting the schedule
  is the observation point (the real loop would block on the next read).
-/

namespace LivePlot

/-- Exceptions the source can raise on the paths we model:
`NotImplementedError` in `__init__`, a conversion failure in `self.comp`,
`ValueError` for writing to a closed file, and the `AssertionError` that
`multiprocessing.Process.join` raises on a never-started process. -/
inductive PyErr where
  | notImplemented
  | convError
  | ioError
  | assertionError
deriving DecidableEq, Repr

/-- The mode a file is opened with.  `open(save, 'w+')` is `writeTrunc`
(create or truncate); `appendMode` models `open(save, 'a')`, which the
source does not use. -/
inductive FileMode where
  | writeTrunc
  | appendMode
deriving DecidableEq, Repr

/-- An open file handle: its current content and whether it is open. -/
structure FileState where
  content : List Char
  isOpen : Bool
deriving DecidableEq, Repr

/-- Opening a path whose previous on-disk content is `disk`:
`'w+'` truncates to empty, append mode would keep `disk`. -/
def openFile : FileMode → List Char → FileState
  | FileMode.writeTrunc, _ => ⟨[], true⟩
  | FileMode.appendMode, disk => ⟨disk, true⟩

/-- A file-system effect performed by the constructor. -/
inductive FsEffect where
  | opened (path : List Char) (mode : FileMode)
deriving DecidableEq, Repr

/-- The immutable attributes set by `__init__` from its arguments:
`self.comp`, `self.dec`, `self.prop`, `self.save`, `self.verb`, together
with the `str` rendering of samples used by `save_data`. -/
structure Config (α : Type) where
  comp : List Char → Option α
  dec : Option (List Char)
  prop : Option (List (List Char))
  save : Option (List Char)
  verb : Bool
  toStr : α → List Char

/-- The mutable state of a `LivePlot` object: `self.stopping` (the
`mp.Event`), `self.values`, `self.save_file` (present iff a save path was
given), and whether `start()` has been called on the process. -/
structure LPState (α : Type) where
  stopping : Bool
  values : List α
  saveFile : Option FileState
  started : Bool
deriving DecidableEq, Repr

/-- Observable events, in program order: matplotlib setup calls, one
`readline`, one `self.values.append`, the verbose `print`, one
`save_file.write`, one `save_file.flush`, one full redraw of the series,
`self.stopping.set()`, `self.save_file.close()`, and the wait performed by
`mp.Process.join`. -/
inductive Event (α : Type) where
  | figure
  | ion
  | showFig
  | holdOff
  | read (raw : List Char)
  | append (v : α)
  | print (raw : List Char) (v : α)
  | write (cs : List Char)
  | flush
  | draw (vals : List α)
  | setStopping
  | closeFile
  | wait
deriving DecidableEq, Repr

/-- The constructor `LivePlot.__init__`: sets `stopping` (clear), `values = []`, opens
`save` with `'w+'` when a path is given, and only AFTER that raises
`NotImplementedError` when `cb` or `clean` is not `None`.  `disk` is the
previous content of the save path on disk; the returned effect list records
the file creation, which happens even when construction then fails. -/
def mkLivePlot (cfg : Config α) (clean cb : Option Unit) (disk : List Char) :
    List FsEffect × Except PyErr (LPState α) :=
  let sf : Option FileState := cfg.save.map fun _ => openFile FileMode.writeTrunc disk
  let effs : List FsEffect :=
    match cfg.save with
    | some p => [FsEffect.opened p FileMode.writeTrunc]
    | none => []
  let st : LPState α := ⟨false, [], sf, false⟩
  if cb.isSome then (effs, Except.error PyErr.notImplemented)
  else if clean.isSome then (effs, Except.error PyErr.notImplemented)
  else (effs, Except.ok st)

/-- The effect of `mp.Process.start()` as far as object state is concerned. -/
def start (s : LPState α) : LPState α :=
  { s with started := true }

/-- Method `LivePlot.save_data`: `self.save_file.write(str(data) + '\n')` then
`flush`.  Writing to a closed file raises (`ValueError` in Python, mapped
to `ioError`). -/
def save_data (cfg : Config α) (f : FileState) (data : α) :
    FileState × List (Event α) × Option PyErr :=
  if f.isOpen then
    (⟨f.content ++ cfg.toStr data ++ ['\n'], true⟩,
     [Event.write (cfg.toStr data ++ ['\n']), Event.flush], none)
  else (f, [], some PyErr.ioError)

/-- Method `LivePlot.plot`: redraws the full series (`plt.plot(self.values, ...)`;
decorations `dec`/`prop` only style the artist, so the event records the
data drawn). -/
def plot (s : LPState α) : List (Event α) :=
  [Event.draw s.values]

/-- One iteration of the `while` body in `LivePlot.run`: `readline`,
`comp`, `append`, verbose `print`, `save_data` when `self.save is not
None`, `plot`.  Returns the new state, the events of the iteration, and
the exception if one was raised. -/
def runStep (cfg : Config α) (raw : List Char) (s : LPState α) :
    LPState α × List (Event α) × Option PyErr :=
  match cfg.comp raw with
  | none => (s, [Event.read raw], some PyErr.convError)
  | some v =>
    let s1 : LPState α := { s with values := s.values ++ [v] }
    let evV : List (Event α) := if cfg.verb then [Event.print raw v] else []
    match cfg.save, s1.saveFile with
    | some _, some f =>
      match save_data cfg f v with
      | (f2, evW, none) =>
        let s2 : LPState α := { s1 with saveFile := some f2 }
        (s2, Event.read raw :: Event.append v :: (evV ++ evW ++ plot s2), none)
      | (f2, evW, some e) =>
        ({ s1 with saveFile := some f2 },
         Event.read raw :: Event.append v :: (evV ++ evW), some e)
    | some _, none =>
      (s1, Event.read raw :: Event.append v :: evV, some PyErr.ioError)
    | none, _ =>
      (s1, Event.read raw :: Event.append v :: (evV ++ plot s1), none)

/-- The `while not self.stopping.is_set():` loop of `LivePlot.run`,
unrolled along the schedule of available serial lines.  The flag is
checked once per iteration boundary; a raised exception terminates the
loop with the state reached so far. -/
def runLoop (cfg : Config α) : List (List Char) → LPState α →
    LPState α × List (Event α) × Option PyErr
  | [], s => (s, [], none)
  | raw :: rest, s =>
    if s.stopping then (s, [], none)
    else
      match runStep cfg raw s with
      | (s1, ev, some e) => (s1, ev, some e)
      | (s1, ev, none) =>
        let r := runLoop cfg rest s1
        (r.1, ev ++ r.2.1, r.2.2)

/-- Method `LivePlot.run`: plot setup (`figure`, `ion`, `show`, `hold(False)`)
then the acquisition loop. -/
def run (cfg : Config α) (ser : List (List Char)) (s : LPState α) :
    LPState α × List (Event α) × Option PyErr :=
  let r := runLoop cfg ser s
  (r.1, Event.figure :: Event.ion :: Event.showFig :: Event.holdOff :: r.2.1, r.2.2)

/-- Closing a file handle (`file.close()`): idempotent, keeps the content on disk. -/
def closeF (f : FileState) : FileState :=
  ⟨f.content, false⟩

/-- Method `LivePlot.join`: `self.stopping.set()`, then `self.save_file.close()`
when `self.save is not None`, then `super().join()` — which waits when the
process was started and raises `AssertionError` otherwise. -/
def join (cfg : Config α) (s : LPState α) :
    LPState α × List (Event α) × Option PyErr :=
  let s1 : LPState α := { s with stopping := true }
  match cfg.save with
  | some _ =>
    let s2 : LPState α := { s1 with saveFile := s1.saveFile.map closeF }
    if s2.started then
      (s2, [Event.setStopping, Event.closeFile, Event.wait], none)
    else
      (s2, [Event.setStopping, Event.closeFile], some PyErr.assertionError)
  | none =>
    if s1.started then (s1, [Event.setStopping, Event.wait], none)
    else (s1, [Event.setStopping], some PyErr.assertionError)

/-- Returns `true` when the save file, if configured, is present and open — the
state `run` finds after a successful construction. -/
def fileOk (cfg : Config α) (s : LPState α) : Bool :=
  match cfg.save with
  | none => true
  | some _ =>
    match s.saveFile with
    | some f => f.isOpen
    | none => false

/-- The bytes `save_data` appends to the log file for the samples `vs`. -/
def logBytes (cfg : Config α) (vs : List α) : List Char :=
  (vs.map fun v => cfg.toStr v ++ ['\n']).flatten

/-- The save file after a successful run that appended `vs`. -/
def updFile (cfg : Config α) (vs : List α) : Option FileState → Option FileState
  | sf =>
    match cfg.save with
    | none => sf
    | some _ => sf.map fun f => ⟨f.content ++ logBytes cfg vs, f.isOpen⟩

/-- The events of one successful iteration on raw line `raw` converting to
`v`, with `valsAfter` the series after the append. -/
def iterTrace (cfg : Config α) (raw : List Char) (v : α) (valsAfter : List α) :
    List (Event α) :=
  Event.read raw :: Event.append v ::
    ((if cfg.verb then [Event.print raw v] else []) ++
     (if cfg.save.isSome then [Event.write (cfg.toStr v ++ ['\n']), Event.flush] else []) ++
     [Event.draw valsAfter])

/-- The events of a clean run consuming lines `ls` converted to samples
`vs`, starting from series `acc`. -/
def loopTrace (cfg : Config α) : List (List Char) → List α → List α → List (Event α)
  | [], _, _ => []
  | _ :: _, [], _ => []
  | raw :: ls, v :: vs, acc =>
    iterTrace cfg raw v (acc ++ [v]) ++ loopTrace cfg ls vs (acc ++ [v])

/-- The newline-terminated lines of a character stream: each `'\n'` ends a
line; a trailing fragment without `'\n'` counts as a final line.  `acc`
holds the current line, reversed. -/
def linesAux : List Char → List Char → List (List Char)
  | acc, [] => if acc.isEmpty then [] else [acc.reverse]
  | acc, c :: cs =>
    if c = '\n' then acc.reverse :: linesAux [] cs else linesAux (c :: acc) cs

/-- The lines of a file's content. -/
def linesOf (cs : List Char) : List (List Char) :=
  linesAux [] cs

/-- The content of the save file, empty when none is held. -/
def fileContent (s : LPState α) : List Char :=
  match s.saveFile with
  | some f => f.content
  | none => []

/-- The payloads of the `write` events of a trace, in order. -/
def writesOf (tr : List (Event α)) : List (List Char) :=
  tr.filterMap fun e =>
    match e with
    | Event.write cs => some cs
    | _ => none

/-- The sample indices appended in a trace, in order. -/
def appendsOf (tr : List (Event α)) : List α :=
  tr.filterMap fun e =>
    match e with
    | Event.append v => some v
    | _ => none

/-! ### Basic lemmas about the embedding -/

/-- Inversion of a successful construction: both unimplemented options were
absent, the effects are exactly the file-open when a save path was given,
and the state is the freshly initialised one. -/
lemma mk_ok_inv (cfg : Config α) (clean cb : Option Unit) (disk : List Char)
    (effs : List FsEffect) (s : LPState α)
    (h : mkLivePlot cfg clean cb disk = (effs, Except.ok s)) :
    clean = none ∧ cb = none ∧
    effs = (match cfg.save with
            | some p => [FsEffect.opened p FileMode.writeTrunc]
            | none => []) ∧
    s = ⟨false, [], cfg.save.map fun _ => openFile FileMode.writeTrunc disk, false⟩ := by
  cases cb with
  | some u => simp [mkLivePlot] at h
  | none =>
    cases clean with
    | some u => simp [mkLivePlot] at h
    | none =>
      refine ⟨rfl, rfl, ?_, ?_⟩
      · simpa [mkLivePlot] using congrArg Prod.fst h.symm
      · have h2 := congrArg Prod.snd h
        simp [mkLivePlot] at h2
        exact h2.symm

/-- A successfully constructed state is not stopping, has an empty series,
has its save file (if any) open, and is not started. -/
lemma mk_ok_state (cfg : Config α) (clean cb : Option Unit) (disk : List Char)
    (effs : List FsEffect) (s : LPState α)
    (h : mkLivePlot cfg clean cb disk = (effs, Except.ok s)) :
    s.stopping = false ∧ s.values = [] ∧ fileOk cfg s = true ∧ s.started = false := by
  obtain ⟨-, -, -, hs⟩ := mk_ok_inv cfg clean cb disk effs s h
  subst hs
  refine ⟨rfl, rfl, ?_, rfl⟩
  cases hsv : cfg.save <;> simp [fileOk, hsv, openFile]

lemma start_stopping (s : LPState α) : (start s).stopping = s.stopping := rfl

lemma start_values (s : LPState α) : (start s).values = s.values := rfl

lemma start_saveFile (s : LPState α) : (start s).saveFile = s.saveFile := rfl

lemma fileOk_start (cfg : Config α) (s : LPState α) :
    fileOk cfg (start s) = fileOk cfg s := rfl

/-- On a line the converter accepts, with the save file healthy, one
iteration appends the sample, extends the file by `str(v) + '\n'` when
saving, and emits the iteration's events in program order. -/
lemma runStep_ok (cfg : Config α) (raw : List Char) (v : α) (s : LPState α)
    (hc : cfg.comp raw = some v) (hf : fileOk cfg s = true) :
    runStep cfg raw s =
      ({ s with values := s.values ++ [v], saveFile := updFile cfg [v] s.saveFile },
       iterTrace cfg raw v (s.values ++ [v]), none) := by
  obtain ⟨st, vl, sf, sd⟩ := s
  cases hsv : cfg.save with
  | none =>
    simp [runStep, hc, hsv, updFile, iterTrace, plot]
  | some p =>
    simp only [fileOk, hsv] at hf
    cases hsf : sf with
    | none => simp [hsf] at hf
    | some f =>
      rw [hsf] at hf
      obtain ⟨cont, op⟩ := f
      simp only at hf
      subst hf
      simp [runStep, hc, hsv, save_data, updFile, iterTrace, plot, logBytes,
        List.append_assoc]

/-- On a line the converter rejects, the iteration raises `convError` after
the read, leaving the state unchanged. -/
lemma runStep_fail (cfg : Config α) (raw : List Char) (s : LPState α)
    (hc : cfg.comp raw = none) :
    runStep cfg raw s = (s, [Event.read raw], some PyErr.convError) := by
  simp [runStep, hc]

lemma updFile_nil (cfg : Config α) (sf : Option FileState) :
    updFile cfg [] sf = sf := by
  cases hsv : cfg.save <;> cases sf <;> simp [updFile, hsv, logBytes]

lemma updFile_cons (cfg : Config α) (v : α) (vs : List α) (sf : Option FileState) :
    updFile cfg vs (updFile cfg [v] sf) = updFile cfg (v :: vs) sf := by
  cases hsv : cfg.save <;> cases sf <;>
    simp [updFile, hsv, logBytes, List.append_assoc]

lemma fileOk_updFile (cfg : Config α) (vs : List α) (s : LPState α)
    (hf : fileOk cfg s = true) :
    fileOk cfg { s with saveFile := updFile cfg vs s.saveFile } = true := by
  cases hsv : cfg.save with
  | none => simp [fileOk, hsv]
  | some p =>
    simp only [fileOk, hsv] at hf ⊢
    cases hsf : s.saveFile with
    | none => simp [hsf] at hf
    | some f => simp [updFile, hsv, hsf, hf] at hf ⊢; simpa using hf

/-- Full characterisation of a clean run: with the flag clear, the save
file healthy, and every line accepted, the loop appends exactly the
converted samples in order, extends the log by their stringified forms,
emits the per-iteration traces, and raises nothing. -/
lemma runLoop_spec (cfg : Config α) {ser : List (List Char)} {vs : List α}
    (s : LPState α)
    (hconv : List.Forall₂ (fun l v => cfg.comp l = some v) ser vs)
    (hstop : s.stopping = false) (hf : fileOk cfg s = true) :
    runLoop cfg ser s =
      ({ s with values := s.values ++ vs, saveFile := updFile cfg vs s.saveFile },
       loopTrace cfg ser vs s.values, none) := by
  induction hconv generalizing s with
  | nil =>
    simp only [runLoop, loopTrace, updFile_nil]
    obtain ⟨st, vl, sf, sd⟩ := s
    simp
  | cons h1 h2 ih =>
    rename_i raw v ls ws
    obtain ⟨st, vl, sf, sd⟩ := s
    have hst : st = false := hstop
    subst hst
    have hstep : runStep cfg raw ⟨false, vl, sf, sd⟩ =
        (⟨false, vl ++ [v], updFile cfg [v] sf, sd⟩, iterTrace cfg raw v (vl ++ [v]), none) :=
      runStep_ok cfg raw v ⟨false, vl, sf, sd⟩ h1 hf
    have hf1 : fileOk cfg (⟨false, vl ++ [v], updFile cfg [v] sf, sd⟩ : LPState α) = true :=
      fileOk_updFile cfg [v] ⟨false, vl, sf, sd⟩ hf
    have hrec : runLoop cfg ls ⟨false, vl ++ [v], updFile cfg [v] sf, sd⟩ =
        (⟨false, (vl ++ [v]) ++ ws, updFile cfg ws (updFile cfg [v] sf), sd⟩,
         loopTrace cfg ls ws (vl ++ [v]), none) :=
      ih _ rfl hf1
    simp [runLoop, hstep, hrec, loopTrace, updFile_cons, List.append_assoc]

/-- Once the loop observes the flag set, it performs no iteration at all. -/
lemma runLoop_stopped (cfg : Config α) (ser : List (List Char)) (s : LPState α)
    (h : s.stopping = true) : runLoop cfg ser s = (s, [], none) := by
  cases ser <;> simp [runLoop, h]

/-- No iteration of the loop body touches the stopping flag. -/
lemma runStep_stopping (cfg : Config α) (raw : List Char) (s : LPState α) :
    ((runStep cfg raw s).1).stopping = s.stopping := by
  unfold runStep
  cases cfg.comp raw with
  | none => rfl
  | some v =>
    cases cfg.save with
    | none => rfl
    | some p =>
      cases s.saveFile with
      | none => rfl
      | some f =>
        unfold save_data
        by_cases h : f.isOpen = true <;> simp [h]

/-- The loop never writes the stopping flag: only `join` does. -/
lemma runLoop_stopping (cfg : Config α) (ser : List (List Char)) (s : LPState α) :
    ((runLoop cfg ser s).1).stopping = s.stopping := by
  induction ser generalizing s with
  | nil => rfl
  | cons raw rest ih =>
    by_cases h : s.stopping = true
    · simp [runLoop, h]
    · have h0 : s.stopping = false := by simpa using h
      rcases hr : runStep cfg raw s with ⟨s1, ev, e⟩
      have hs1 : s1.stopping = s.stopping := by
        have := runStep_stopping cfg raw s
        rw [hr] at this
        exact this
      cases e with
      | none => simp [runLoop, h0, hr, ih, hs1]
      | some err => simp [runLoop, h0, hr, hs1]

/-- Running the loop over a concatenated schedule composes, provided the
first half raised nothing. -/
lemma runLoop_append (cfg : Config α) (l1 l2 : List (List Char)) (s : LPState α)
    (h : (runLoop cfg l1 s).2.2 = none) :
    runLoop cfg (l1 ++ l2) s =
      ((runLoop cfg l2 (runLoop cfg l1 s).1).1,
       (runLoop cfg l1 s).2.1 ++ (runLoop cfg l2 (runLoop cfg l1 s).1).2.1,
       (runLoop cfg l2 (runLoop cfg l1 s).1).2.2) := by
  induction l1 generalizing s with
  | nil => simp [runLoop]
  | cons raw rest ih =>
    by_cases hs : s.stopping = true
    · have h2 := runLoop_stopped cfg l2 s hs
      simp [runLoop, hs, h2]
    · have h0 : s.stopping = false := by simpa using hs
      rcases hr : runStep cfg raw s with ⟨s1, ev, e⟩
      cases e with
      | some err => simp [runLoop, h0, hr] at h
      | none =>
        have h' : (runLoop cfg rest s1).2.2 = none := by
          simp [runLoop, h0, hr] at h
          exact h
        simp [runLoop, h0, hr, ih s1 h', List.append_assoc]

/-- All of `join` in one equation: flag set, file closed when configured, the
events in program order, and `AssertionError` iff the process was never
started. -/
lemma join_spec (cfg : Config α) (s : LPState α) :
    join cfg s =
      ({ s with stopping := true, saveFile := if cfg.save.isSome then s.saveFile.map closeF else s.saveFile },
       Event.setStopping ::
         ((if cfg.save.isSome then [Event.closeFile] else []) ++
          (if s.started then [Event.wait] else [])),
       if s.started then none else some PyErr.assertionError) := by
  obtain ⟨st, vl, sf, sd⟩ := s
  cases hsv : cfg.save <;> cases sd <;> simp [join, hsv]

lemma closeF_closeF (f : FileState) : closeF (closeF f) = closeF f := rfl

lemma closeF_content (f : FileState) : (closeF f).content = f.content := rfl

/-! ### Lines of the log file -/

lemma linesAux_newline_chunk (l : List Char) (rest acc : List Char)
    (h : '\n' ∉ l) :
    linesAux acc (l ++ '\n' :: rest) = (acc.reverse ++ l) :: linesAux [] rest := by
  induction l generalizing acc with
  | nil => simp [linesAux]
  | cons c cs ih =>
    have hc : ¬ c = '\n' := fun e => h (by simp [e])
    have hcs : '\n' ∉ cs := fun m => h (List.mem_cons_of_mem _ m)
    show linesAux acc ((c :: cs) ++ '\n' :: rest) = _
    rw [List.cons_append, linesAux, if_neg hc, ih (c :: acc) hcs]
    simp [List.append_assoc]

/-- The log bytes of samples whose rendering contains no newline split
back into exactly one line per sample, in order. -/
lemma linesOf_logBytes (cfg : Config α) (vs : List α)
    (h : ∀ v ∈ vs, '\n' ∉ cfg.toStr v) :
    linesOf (logBytes cfg vs) = vs.map cfg.toStr := by
  induction vs with
  | nil => simp [linesOf, linesAux, logBytes]
  | cons v vs ih =>
    have hv : '\n' ∉ cfg.toStr v := h v (List.mem_cons_self v vs)
    have hvs : ∀ w ∈ vs, '\n' ∉ cfg.toStr w := fun w m => h w (List.mem_cons_of_mem _ m)
    have : logBytes cfg (v :: vs) = cfg.toStr v ++ '\n' :: logBytes cfg vs := by
      simp [logBytes]
    rw [List.map_cons, ← ih hvs, linesOf, this, linesAux_newline_chunk _ _ _ hv]
    simp [linesOf]

/-! ### Writes and appends of a trace -/

lemma writesOf_append (t1 t2 : List (Event α)) :
    writesOf (t1 ++ t2) = writesOf t1 ++ writesOf t2 := by
  simp [writesOf]

lemma appendsOf_append (t1 t2 : List (Event α)) :
    appendsOf (t1 ++ t2) = appendsOf t1 ++ appendsOf t2 := by
  simp [appendsOf]

lemma writesOf_iterTrace (cfg : Config α) (raw : List Char) (v : α) (va : List α) :
    writesOf (iterTrace cfg raw v va) =
      if cfg.save.isSome then [cfg.toStr v ++ ['\n']] else [] := by
  cases hv : cfg.verb <;> cases hs : cfg.save <;> simp [iterTrace, writesOf, hv, hs]

lemma appendsOf_iterTrace (cfg : Config α) (raw : List Char) (v : α) (va : List α) :
    appendsOf (iterTrace cfg raw v va) = [v] := by
  cases hv : cfg.verb <;> cases hs : cfg.save <;> simp [iterTrace, appendsOf, hv, hs]

lemma writesOf_loopTrace (cfg : Config α) (ser : List (List Char)) (vs : List α)
    (acc : List α) (hlen : ser.length = vs.length) :
    writesOf (loopTrace cfg ser vs acc) =
      if cfg.save.isSome then vs.map (fun v => cfg.toStr v ++ ['\n']) else [] := by
  induction ser generalizing vs acc with
  | nil =>
    have : vs = [] := by simpa using hlen.symm
    subst this
    cases hs : cfg.save <;> simp [loopTrace, writesOf]
  | cons raw ls ih =>
    cases vs with
    | nil => simp at hlen
    | cons v ws =>
      have hlen' : ls.length = ws.length := by simpa using hlen
      rw [loopTrace, writesOf_append, writesOf_iterTrace, ih ws (acc ++ [v]) hlen']
      cases hs : cfg.save <;> simp

lemma appendsOf_loopTrace (cfg : Config α) (ser : List (List Char)) (vs : List α)
    (acc : List α) (hlen : ser.length = vs.length) :
    appendsOf (loopTrace cfg ser vs acc) = vs := by
  induction ser generalizing vs acc with
  | nil =>
    have : vs = [] := by simpa using hlen.symm
    subst this
    simp [loopTrace, appendsOf]
  | cons raw ls ih =>
    cases vs with
    | nil => simp at hlen
    | cons v ws =>
      have hlen' : ls.length = ws.length := by simpa using hlen
      rw [loopTrace, appendsOf_append, appendsOf_iterTrace, ih ws (acc ++ [v]) hlen']
      simp

lemma appendsOf_prelude (tr : List (Event α)) :
    appendsOf (Event.figure :: Event.ion :: Event.showFig :: Event.holdOff :: tr) =
      appendsOf tr := by
  simp [appendsOf]

lemma writesOf_prelude (tr : List (Event α)) :
    writesOf (Event.figure :: Event.ion :: Event.showFig :: Event.holdOff :: tr) =
      writesOf tr := by
  simp [writesOf]

/-! ### Concrete instances used to exercise the theorems -/

/-- A concrete converter setup with no save path: the sample is the length
of the raw line, rendered as a run of `'x'`. -/
def natCfg : Config Nat :=
  ⟨fun l => some l.length, none, none, none, false, fun n => List.replicate (n + 1) 'x'⟩

/-- The same converter with a save path `"p"` and verbose printing. -/
def saveCfg : Config Nat :=
  ⟨fun l => some l.length, none, none, some ['p'], true, fun n => List.replicate (n + 1) 'x'⟩

/-- A converter that rejects the raw line `"b"`, with a save path. -/
def failCfg : Config Nat :=
  ⟨fun l => if l = ['b'] then none else some l.length, none, none, some ['p'], false,
   fun n => List.replicate (n + 1) 'x'⟩

/-- The state `mkLivePlot natCfg none none []` constructs. -/
def s0nat : LPState Nat := ⟨false, [], none, false⟩

/-- The state `mkLivePlot saveCfg none none disk` constructs. -/
def s0save : LPState Nat := ⟨false, [], some ⟨[], true⟩, false⟩

example : (run natCfg [['a'], ['b', 'c']] (start s0nat)).1.values = [1, 2] := by decide

example : (run saveCfg [['a'], ['b', 'c']] (start s0save)).2.2 = none := by decide

example :
    fileContent (join saveCfg (run saveCfg [['a'], ['b', 'c']] (start s0save)).1).1 =
      ['x', 'x', '\n', 'x', 'x', 'x', '\n'] := by decide

example : linesOf ['x', 'x', '\n', 'x', 'x', 'x', '\n'] = [['x', 'x'], ['x', 'x', 'x']] := by
  decide

example :
    (runLoop failCfg [['a'], ['b'], ['c']] s0save).1.values = [1] ∧
    (runLoop failCfg [['a'], ['b'], ['c']] s0save).2.2 = some PyErr.convError := by decide

example : mkLivePlot saveCfg none (some ()) ['z'] =
    ([FsEffect.opened ['p'] FileMode.writeTrunc], Except.error PyErr.notImplemented) := rfl

/-! ### The claims -/

/-- Claim C1: for every sequence of N raw lines each accepted by the
converter function `comp` without failure, after N iterations of the
acquisition loop (`run`) the in-memory series `self.values` has length
exactly N and `values[i]` equals the value `comp` returned for `line_i`,
with elements in the order the lines were read (and no exception is
raised). -/
theorem C1_series_after_run (cfg : Config α) (disk : List Char)
    (effs : List FsEffect) (s0 : LPState α) (ser : List (List Char)) (vs : List α)
    (hmk : mkLivePlot cfg none none disk = (effs, Except.ok s0))
    (hconv : List.Forall₂ (fun l v => cfg.comp l = some v) ser vs) :
    (run cfg ser (start s0)).1.values.length = ser.length ∧
    List.Forall₂ (fun l v => cfg.comp l = some v) ser ((run cfg ser (start s0)).1.values) ∧
    (∀ i (h1 : i < ser.length) (h2 : i < (run cfg ser (start s0)).1.values.length),
       cfg.comp (ser.get ⟨i, h1⟩) =
         some ((run cfg ser (start s0)).1.values.get ⟨i, h2⟩)) ∧
    (run cfg ser (start s0)).2.2 = none := by
  obtain ⟨hstop, hvals, hfok, -⟩ := mk_ok_state cfg none none disk effs s0 hmk
  have hrun := runLoop_spec cfg (start s0) hconv
    (by simpa [start_stopping] using hstop) (by simpa [fileOk_start] using hfok)
  have hv : (run cfg ser (start s0)).1.values = vs := by
    simp [run, hrun, start_values, hvals]
  have hconv2 : List.Forall₂ (fun l v => cfg.comp l = some v) ser
      ((run cfg ser (start s0)).1.values) := by
    rw [hv]; exact hconv
  refine ⟨?_, hconv2, ?_, ?_⟩
  · exact hconv2.length_eq.symm
  · exact fun i h1 h2 => (List.forall₂_iff_get.mp hconv2).2 i h1 h2
  · simp [run, hrun]

/-- Claim C1, exercised: the two lines `"a"` and `"bc"` with the
length-converter yield the series `[1, 2]`. -/
theorem C1_witness :
    (run natCfg [['a'], ['b', 'c']] (start s0nat)).1.values.length =
      [['a'], ['b', 'c']].length ∧
    List.Forall₂ (fun l v => natCfg.comp l = some v) [['a'], ['b', 'c']]
      ((run natCfg [['a'], ['b', 'c']] (start s0nat)).1.values) ∧
    (∀ i (h1 : i < [['a'], ['b', 'c']].length)
       (h2 : i < (run natCfg [['a'], ['b', 'c']] (start s0nat)).1.values.length),
       natCfg.comp ([['a'], ['b', 'c']].get ⟨i, h1⟩) =
         some ((run natCfg [['a'], ['b', 'c']] (start s0nat)).1.values.get ⟨i, h2⟩)) ∧
    (run natCfg [['a'], ['b', 'c']] (start s0nat)).2.2 = none :=
  C1_series_after_run natCfg [] [] s0nat [['a'], ['b', 'c']] [1, 2] rfl
    (List.Forall₂.cons rfl (List.Forall₂.cons rfl List.Forall₂.nil))

/-- Claim C2: for every run constructed with a save path and every
sequence of N raw lines accepted by the converter, after a clean stop
(`join`) the log file contains exactly N newline-terminated lines, line i
equal to `str(values[i])`, in the order of the series appends.  (The
samples' string renderings are assumed newline-free, as for the numeric
samples the tool logs.) -/
theorem C2_log_file (cfg : Config α) (p disk : List Char) (effs : List FsEffect)
    (s0 : LPState α) (ser : List (List Char)) (vs : List α)
    (hmk : mkLivePlot cfg none none disk = (effs, Except.ok s0))
    (hsave : cfg.save = some p)
    (hconv : List.Forall₂ (fun l v => cfg.comp l = some v) ser vs)
    (hnl : ∀ v ∈ vs, '\n' ∉ cfg.toStr v) :
    linesOf (fileContent (join cfg (run cfg ser (start s0)).1).1) =
      ((run cfg ser (start s0)).1.values).map cfg.toStr ∧
    (linesOf (fileContent (join cfg (run cfg ser (start s0)).1).1)).length = ser.length ∧
    (join cfg (run cfg ser (start s0)).1).2.2 = none := by
  obtain ⟨-, -, -, hs0⟩ := mk_ok_inv cfg none none disk effs s0 hmk
  subst hs0
  have hstate : start (⟨false, [], cfg.save.map fun _ => openFile FileMode.writeTrunc disk,
      false⟩ : LPState α) = ⟨false, [], some ⟨[], true⟩, true⟩ := by
    simp [start, hsave, openFile]
  have hrun := runLoop_spec cfg (⟨false, [], some ⟨[], true⟩, true⟩ : LPState α) hconv rfl
    (by simp [fileOk, hsave])
  have hr : run cfg ser (⟨false, [], some ⟨[], true⟩, true⟩ : LPState α) =
      (⟨false, vs, some ⟨logBytes cfg vs, true⟩, true⟩,
       Event.figure :: Event.ion :: Event.showFig :: Event.holdOff ::
         loopTrace cfg ser vs [], none) := by
    simp [run, hrun, updFile, hsave]
  have hjoin := join_spec cfg (⟨false, vs, some ⟨logBytes cfg vs, true⟩, true⟩ : LPState α)
  have hfc : fileContent (join cfg (run cfg ser (start (⟨false, [],
      cfg.save.map fun _ => openFile FileMode.writeTrunc disk, false⟩ : LPState α))).1).1 =
      logBytes cfg vs := by
    rw [hstate, hr]
    simp [hjoin, hsave, closeF, fileContent]
  have hv : (run cfg ser (start (⟨false, [],
      cfg.save.map fun _ => openFile FileMode.writeTrunc disk, false⟩ : LPState α))).1.values =
      vs := by
    rw [hstate, hr]
  refine ⟨?_, ?_, ?_⟩
  · rw [hfc, hv, linesOf_logBytes cfg vs hnl]
  · rw [hfc, linesOf_logBytes cfg vs hnl]
    simpa using hconv.length_eq.symm
  · rw [hstate, hr]
    simp [hjoin]

/-- Claim C2, exercised: lines `"a"`, `"bc"` with the length-converter and
save path `"p"` leave the log with exactly the two lines `"xx"` and
`"xxx"` after a clean stop. -/
theorem C2_witness :
    linesOf (fileContent (join saveCfg (run saveCfg [['a'], ['b', 'c']]
        (start s0save)).1).1) =
      ((run saveCfg [['a'], ['b', 'c']] (start s0save)).1.values).map saveCfg.toStr ∧
    (linesOf (fileContent (join saveCfg (run saveCfg [['a'], ['b', 'c']]
        (start s0save)).1).1)).length = [['a'], ['b', 'c']].length ∧
    (join saveCfg (run saveCfg [['a'], ['b', 'c']] (start s0save)).1).2.2 = none :=
  C2_log_file saveCfg ['p'] ['o', 'l', 'd'] [FsEffect.opened ['p'] FileMode.writeTrunc]
    s0save [['a'], ['b', 'c']] [1, 2] rfl rfl
    (List.Forall₂.cons rfl (List.Forall₂.cons rfl List.Forall₂.nil))
    (by decide)

/-- Claim C3, counterexample: constructing with the unimplemented `cb`
option AND a save path does fail with `NotImplementedError`, but the log
file IS created first — `__init__` runs `open(save, 'w+')` before the
`raise NotImplementedError` — so "no log file is created, even when a save
path is also supplied" is false at this input. -/
theorem C3_counterexample :
    (mkLivePlot saveCfg none (some ()) ['z']).2 = Except.error PyErr.notImplemented ∧
    (mkLivePlot saveCfg none (some ()) ['z']).1 =
      [FsEffect.opened ['p'] FileMode.writeTrunc] ∧
    ¬ (mkLivePlot saveCfg none (some ()) ['z']).1 = [] :=
  ⟨rfl, rfl, by decide⟩

/-- Claim C3 as amended: if an unimplemented option (`cb` or `clean`) is
supplied, construction fails with `NotImplementedError` before `start()`
can be called; but the log-file side effect is not prevented: exactly when
a save path is also supplied, the file has already been opened (created or
truncated) before the failure is raised. -/
theorem C3_amended (cfg : Config α) (clean cb : Option Unit) (disk : List Char)
    (h : cb.isSome = true ∨ clean.isSome = true) :
    (mkLivePlot cfg clean cb disk).2 = Except.error PyErr.notImplemented ∧
    (mkLivePlot cfg clean cb disk).1 =
      (match cfg.save with
       | some p => [FsEffect.opened p FileMode.writeTrunc]
       | none => []) := by
  cases cb with
  | some u => exact ⟨by simp [mkLivePlot], by simp [mkLivePlot]⟩
  | none =>
    cases clean with
    | some u => exact ⟨by simp [mkLivePlot], by simp [mkLivePlot]⟩
    | none => simp at h

/-- Claim C3 (amended), exercised: `clean` supplied with no save path
fails with no file-system effect. -/
theorem C3_witness :
    (mkLivePlot natCfg (some ()) none []).2 = Except.error PyErr.notImplemented ∧
    (mkLivePlot natCfg (some ()) none []).1 =
      (match natCfg.save with
       | some p => [FsEffect.opened p FileMode.writeTrunc]
       | none => []) :=
  C3_amended natCfg (some ()) none [] (Or.inr rfl)

/-- Claim C4: calling `join` twice produces the same end state as calling
it once — the second call does not fail, setting the stopping flag again
is a no-op, and the log file (when one is held) ends up closed with no
additional effect from the second call. -/
theorem C4_join_idempotent (cfg : Config α) (s : LPState α) (h : s.started = true) :
    (join cfg (join cfg s).1).1 = (join cfg s).1 ∧
    (join cfg (join cfg s).1).2.2 = none ∧
    (cfg.save.isSome = true →
      ∀ f, ((join cfg (join cfg s).1).1).saveFile = some f → f.isOpen = false) := by
  obtain ⟨st, vl, sf, sd⟩ := s
  have hsd : sd = true := h
  subst hsd
  cases hsv : cfg.save with
  | none => simp [join, hsv]
  | some p =>
    cases sf with
    | none => simp [join, hsv]
    | some f =>
      refine ⟨?_, ?_, ?_⟩
      · simp [join, hsv, closeF]
      · simp [join, hsv]
      · intro hs g hg
        simp [join, hsv, closeF] at hg
        rw [← hg]

/-- Claim C4, exercised at a started state holding an open file. -/
theorem C4_witness :
    (join saveCfg (join saveCfg (⟨false, [3], some ⟨['x'], true⟩, true⟩ : LPState Nat)).1).1 =
      (join saveCfg (⟨false, [3], some ⟨['x'], true⟩, true⟩ : LPState Nat)).1 ∧
    (join saveCfg (join saveCfg (⟨false, [3], some ⟨['x'], true⟩, true⟩ : LPState Nat)).1).2.2 =
      none ∧
    (saveCfg.save.isSome = true →
      ∀ f, ((join saveCfg (join saveCfg (⟨false, [3], some ⟨['x'], true⟩, true⟩ :
        LPState Nat)).1).1).saveFile = some f → f.isOpen = false) :=
  C4_join_idempotent saveCfg ⟨false, [3], some ⟨['x'], true⟩, true⟩ rfl

/-- Claim C5: when the converter fails on a raw line, the run terminates
with that conversion failure, no append happens for the failing line, and
the series retains exactly the samples appended before it. -/
theorem C5_conversion_failure (cfg : Config α) (s : LPState α)
    (good rest : List (List Char)) (bad : List Char) (gvs : List α)
    (hstop : s.stopping = false) (hf : fileOk cfg s = true)
    (hconv : List.Forall₂ (fun l v => cfg.comp l = some v) good gvs)
    (hbad : cfg.comp bad = none) :
    (runLoop cfg (good ++ bad :: rest) s).2.2 = some PyErr.convError ∧
    (runLoop cfg (good ++ bad :: rest) s).1.values = s.values ++ gvs ∧
    (runLoop cfg (good ++ bad :: rest) s).1.values.length =
      s.values.length + good.length := by
  have h1 := runLoop_spec cfg s hconv hstop hf
  have herr1 : (runLoop cfg good s).2.2 = none := by rw [h1]
  have happ := runLoop_append cfg good (bad :: rest) s herr1
  rw [h1] at happ
  dsimp only at happ
  have hone : ∀ t : LPState α, t.stopping = false →
      runLoop cfg (bad :: rest) t = (t, [Event.read bad], some PyErr.convError) := by
    intro t ht
    have hstep := runStep_fail cfg bad t hbad
    simp [runLoop, ht, hstep]
  rw [hone ({ s with values := s.values ++ gvs, saveFile := updFile cfg gvs s.saveFile } :
    LPState α) hstop] at happ
  rw [happ]
  refine ⟨rfl, rfl, ?_⟩
  simp [hconv.length_eq]

/-- Claim C5, exercised: lines `"a"`, `"b"`, `"c"` where the converter
rejects `"b"`: the loop stops with `convError` holding only the sample
for `"a"`. -/
theorem C5_witness :
    (runLoop failCfg ([['a']] ++ ['b'] :: [['c']]) s0save).2.2 = some PyErr.convError ∧
    (runLoop failCfg ([['a']] ++ ['b'] :: [['c']]) s0save).1.values = s0save.values ++ [1] ∧
    (runLoop failCfg ([['a']] ++ ['b'] :: [['c']]) s0save).1.values.length =
      s0save.values.length + [['a']].length :=
  C5_conversion_failure failCfg s0save [['a']] [['c']] ['b'] [1] rfl rfl
    (List.Forall₂.cons (by decide) List.Forall₂.nil) (by decide)

/-- Claim C6: the stopping flag starts clear, is never touched by `start`
or by the acquisition loop, is set (only) by `join`, and once the loop
observes it set no new iteration begins — the flag transitions at most
once and is never reset. -/
theorem C6_stopping_flag_protocol (cfg : Config α) :
    (∀ (clean cb : Option Unit) (disk : List Char) (effs : List FsEffect) (s : LPState α),
        mkLivePlot cfg clean cb disk = (effs, Except.ok s) → s.stopping = false) ∧
    (∀ s : LPState α, (start s).stopping = s.stopping) ∧
    (∀ (ser : List (List Char)) (s : LPState α),
        ((runLoop cfg ser s).1).stopping = s.stopping) ∧
    (∀ s : LPState α, ((join cfg s).1).stopping = true) ∧
    (∀ (ser : List (List Char)) (s : LPState α), s.stopping = true →
        runLoop cfg ser s = (s, [], none)) := by
  refine ⟨?_, fun s => rfl, runLoop_stopping cfg, ?_, runLoop_stopped cfg⟩
  · intro clean cb disk effs s h
    exact (mk_ok_state cfg clean cb disk effs s h).1
  · intro s
    simp [join_spec cfg s]

/-- Claim C6, exercised: a stopped state runs no iteration; `join` leaves
the flag set; the loop leaves a clear flag clear. -/
theorem C6_witness :
    runLoop natCfg [['a'], ['b']] (⟨true, [], none, false⟩ : LPState Nat) =
      (⟨true, [], none, false⟩, [], none) ∧
    ((join natCfg (⟨false, [], none, true⟩ : LPState Nat)).1).stopping = true ∧
    ((runLoop natCfg [['a']] (⟨false, [5], none, false⟩ : LPState Nat)).1).stopping =
      (⟨false, [5], none, false⟩ : LPState Nat).stopping :=
  ⟨(C6_stopping_flag_protocol natCfg).2.2.2.2 [['a'], ['b']] _ rfl,
   (C6_stopping_flag_protocol natCfg).2.2.2.1 _,
   (C6_stopping_flag_protocol natCfg).2.2.1 [['a']] _⟩

/-- Claim C7: every iteration of the acquisition loop performs its steps
in the fixed order read, convert, append, verbose print, log write + flush
(when saving), redraw — `iterTrace`/`loopTrace` spell exactly that order —
and consequently the log writes happen in the same order as the series
appends, one write per append. -/
theorem C7_iteration_order (cfg : Config α) (s : LPState α) (ser : List (List Char))
    (vs : List α)
    (hstop : s.stopping = false) (hf : fileOk cfg s = true)
    (hconv : List.Forall₂ (fun l v => cfg.comp l = some v) ser vs) :
    (run cfg ser s).2.1 =
      Event.figure :: Event.ion :: Event.showFig :: Event.holdOff ::
        loopTrace cfg ser vs s.values ∧
    appendsOf (run cfg ser s).2.1 = vs ∧
    (cfg.save.isSome = true →
      writesOf (run cfg ser s).2.1 = vs.map fun v => cfg.toStr v ++ ['\n']) := by
  have h1 := runLoop_spec cfg s hconv hstop hf
  have hlen : ser.length = vs.length := hconv.length_eq
  have htr : (run cfg ser s).2.1 =
      Event.figure :: Event.ion :: Event.showFig :: Event.holdOff ::
        loopTrace cfg ser vs s.values := by
    simp [run, h1]
  refine ⟨htr, ?_, ?_⟩
  · rw [htr, appendsOf_prelude]
    exact appendsOf_loopTrace cfg ser vs s.values hlen
  · intro hsv
    rw [htr, writesOf_prelude, writesOf_loopTrace cfg ser vs s.values hlen, if_pos hsv]

/-- Claim C7, exercised with saving and verbose printing enabled. -/
theorem C7_witness :
    (run saveCfg [['a'], ['b', 'c']] s0save).2.1 =
      Event.figure :: Event.ion :: Event.showFig :: Event.holdOff ::
        loopTrace saveCfg [['a'], ['b', 'c']] [1, 2] s0save.values ∧
    appendsOf (run saveCfg [['a'], ['b', 'c']] s0save).2.1 = [1, 2] ∧
    (saveCfg.save.isSome = true →
      writesOf (run saveCfg [['a'], ['b', 'c']] s0save).2.1 =
        [1, 2].map fun v => saveCfg.toStr v ++ ['\n']) :=
  C7_iteration_order saveCfg s0save [['a'], ['b', 'c']] [1, 2] rfl rfl
    (List.Forall₂.cons rfl (List.Forall₂.cons rfl List.Forall₂.nil))

/-- Claim C8: `join` performs exactly, in this order: set the stopping
flag, close the log file when one is configured, then wait for the loop's
execution context — and on a started instance it raises nothing. -/
theorem C8_join_order (cfg : Config α) (s : LPState α) (h : s.started = true) :
    (join cfg s).2.1 =
      Event.setStopping ::
        ((if cfg.save.isSome then [Event.closeFile] else []) ++ [Event.wait]) ∧
    ((join cfg s).1).stopping = true ∧
    ((join cfg s).1).saveFile =
      (if cfg.save.isSome then s.saveFile.map closeF else s.saveFile) ∧
    (join cfg s).2.2 = none := by
  rw [join_spec cfg s]
  simp [h]

/-- Claim C8, exercised on a started state with a save file. -/
theorem C8_witness :
    (join saveCfg (⟨false, [3], some ⟨['x'], true⟩, true⟩ : LPState Nat)).2.1 =
      Event.setStopping ::
        ((if saveCfg.save.isSome then [Event.closeFile] else []) ++ [Event.wait]) ∧
    ((join saveCfg (⟨false, [3], some ⟨['x'], true⟩, true⟩ : LPState Nat)).1).stopping =
      true ∧
    ((join saveCfg (⟨false, [3], some ⟨['x'], true⟩, true⟩ : LPState Nat)).1).saveFile =
      (if saveCfg.save.isSome then
        (some (⟨['x'], true⟩ : FileState)).map closeF
       else some ⟨['x'], true⟩) ∧
    (join saveCfg (⟨false, [3], some ⟨['x'], true⟩, true⟩ : LPState Nat)).2.2 = none :=
  C8_join_order saveCfg ⟨false, [3], some ⟨['x'], true⟩, true⟩ rfl

/-- Claim C9: with a save path, construction opens the log file in
write-create (truncating) mode — not append mode — so the file starts
empty whatever the path previously held on disk, and `join` closes it
at shutdown. -/
theorem C9_truncating_open (cfg : Config α) (p disk : List Char)
    (hsave : cfg.save = some p) :
    (mkLivePlot cfg none none disk).1 = [FsEffect.opened p FileMode.writeTrunc] ∧
    (mkLivePlot cfg none none disk).2 =
      Except.ok (⟨false, [], some ⟨[], true⟩, false⟩ : LPState α) ∧
    openFile FileMode.writeTrunc disk = ⟨[], true⟩ ∧
    openFile FileMode.appendMode disk = ⟨disk, true⟩ ∧
    FileMode.writeTrunc ≠ FileMode.appendMode ∧
    (∀ s : LPState α, ∀ f, ((join cfg s).1).saveFile = some f → f.isOpen = false) := by
  refine ⟨?_, ?_, rfl, rfl, by decide, ?_⟩
  · simp [mkLivePlot, hsave]
  · simp [mkLivePlot, hsave, openFile]
  · intro s f hf
    rw [join_spec cfg s] at hf
    simp [hsave] at hf
    cases hsf : s.saveFile with
    | none => rw [hsf] at hf; simp at hf
    | some g =>
      rw [hsf] at hf
      simp [closeF] at hf
      rw [← hf]

/-- Claim C9, exercised: a rerun over a path holding `"old"` starts from
an empty, open file. -/
theorem C9_witness :
    (mkLivePlot saveCfg none none ['o', 'l', 'd']).1 =
      [FsEffect.opened ['p'] FileMode.writeTrunc] ∧
    (mkLivePlot saveCfg none none ['o', 'l', 'd']).2 =
      Except.ok (⟨false, [], some ⟨[], true⟩, false⟩ : LPState Nat) ∧
    openFile FileMode.writeTrunc ['o', 'l', 'd'] = ⟨[], true⟩ ∧
    openFile FileMode.appendMode ['o', 'l', 'd'] = ⟨['o', 'l', 'd'], true⟩ ∧
    FileMode.writeTrunc ≠ FileMode.appendMode ∧
    (∀ s : LPState Nat, ∀ f, ((join saveCfg s).1).saveFile = some f → f.isOpen = false) :=
  C9_truncating_open saveCfg ['p'] ['o', 'l', 'd'] rfl

/-- Claim C10 (implicit): `join` on a never-started instance still sets
the stopping flag and closes the log file before the wait raises
`AssertionError`; neither side effect is rolled back, and no wait event
occurs. -/
theorem C10_join_before_start (cfg : Config α) (s : LPState α) (h : s.started = false) :
    (join cfg s).2.2 = some PyErr.assertionError ∧
    ((join cfg s).1).stopping = true ∧
    ((join cfg s).1).saveFile =
      (if cfg.save.isSome then s.saveFile.map closeF else s.saveFile) ∧
    (join cfg s).2.1 =
      Event.setStopping :: (if cfg.save.isSome then [Event.closeFile] else []) := by
  rw [join_spec cfg s]
  simp [h]

/-- Claim C10, exercised on a never-started state with an open file. -/
theorem C10_witness :
    (join saveCfg (⟨false, [], some ⟨[], true⟩, false⟩ : LPState Nat)).2.2 =
      some PyErr.assertionError ∧
    ((join saveCfg (⟨false, [], some ⟨[], true⟩, false⟩ : LPState Nat)).1).stopping =
      true ∧
    ((join saveCfg (⟨false, [], some ⟨[], true⟩, false⟩ : LPState Nat)).1).saveFile =
      (if saveCfg.save.isSome then
        (some (⟨[], true⟩ : FileState)).map closeF
       else some ⟨[], true⟩) ∧
    (join saveCfg (⟨false, [], some ⟨[], true⟩, false⟩ : LPState Nat)).2.1 =
      Event.setStopping :: (if saveCfg.save.isSome then [Event.closeFile] else []) :=
  C10_join_before_start saveCfg ⟨false, [], some ⟨[], true⟩, false⟩ rfl

end LivePlot
